import Mathlib

/-!
Shallow embedding of the consensus-state cache layer of the relay monitor
(Go package `consensus`, file embedded from `src/unnamed/part_001`, plus the
fault-record data of `src/pkg/analysis/relay_faults.go`).

Conventions of the embedding:
* Go `uint64` slots and epochs are modelled as `Nat`; the only place the Go
  code can wrap around (the `slot - 1` in `GetParentHash`) is made explicit
  with `% 2 ^ 64` arithmetic.
* The hashicorp `lru.Cache` is modelled as a capacity-bounded association
  list, most-recently-used entry first.  `Add` inserts or updates at the
  front and drops the oldest entry when the capacity is exceeded; `Get`
  moves an existing entry to the front.  This matches
  `github.com/hashicorp/golang-lru` as used with `lru.New(cacheSize)`.
* Go's `(value, error)` returns are modelled with `Except GoErr`; every
  operation that can touch a cache additionally returns the updated cache.
* The remote consensus node (the `eth2api` transport, an external
  collaborator of this repository) is modelled at its interface: each remote
  call is an oracle value describing the outcome of that call.
-/

/-- Modelled from the spec: `types.PublicKey` (package `pkg/types` is not in
`src/`) is a fixed-width byte identifier.  Byte strings are modelled as lists
of naturals. -/
structure PublicKey where
  bytes : List Nat
  deriving DecidableEq, Repr

/-- Modelled from the spec: `types.Hash`, a fixed-width byte hash of an
execution-layer block (`pkg/types` is not in `src/`). -/
structure Hash where
  bytes : List Nat
  deriving DecidableEq, Repr

/-- Modelled from the spec: `types.Root`, a block root hash (`pkg/types` is
not in `src/`). -/
structure Root where
  bytes : List Nat
  deriving DecidableEq, Repr

/-- Modelled from the spec: `types.Slot = uint64` (alias, `pkg/types` is not
in `src/`); the spec calls a slot an unsigned integer that is also used
directly as a cache key, matching `uint64(duty.Slot)` in `FetchProposers`. -/
abbrev Slot := Nat

/-- Modelled from the spec: `types.Epoch = uint64` (alias). -/
abbrev Epoch := Nat

/-- `2 ^ 64`, the modulus of Go `uint64` arithmetic. -/
def U64 : Nat := 2 ^ 64

/-- The `error` values produced by the Go code.  Each constructor stands for
one `fmt.Errorf` site of the source (or for an error produced by the remote
`eth2api` library, carried opaquely by `remoteErr`). -/
inductive GoErr where
  /-- "could not find proposer for slot %d" (`GetProposer`). -/
  | missingProposer (slot : Nat)
  /-- "could not find execution hash for slot %d" (`GetExecutionHash`). -/
  | missingExecutionHash (slot : Nat)
  /-- "missing validator entry for public key %s" (`GetValidator`); the
  argument records the pointer the lookup was keyed by. -/
  | missingValidator (addr : Nat)
  /-- "missing proposer for slot %d: %v" (`GetProposerPublicKey` wrapping the
  `GetProposer` error). -/
  | missingProposerFor (slot : Nat) (inner : GoErr)
  /-- "could not fetch proposal duties in epoch %d because node is syncing"
  (`FetchProposers`). -/
  | nodeSyncing (epoch : Nat)
  /-- "no execution hashes present before %d (inclusive)"
  (`backFillExecutionHash`). -/
  | backfillExhausted (slot : Nat)
  /-- "could not parse block %s" (`FetchExecutionHash`, failed type assertion
  to a bellatrix block). -/
  | parseBlock
  /-- "could not fetch validators from remote endpoint because they do not
  exist" (`FetchValidators`). -/
  | validatorsNotExist
  /-- `lru.New` rejecting a non-positive size (`NewClient`). -/
  | badCacheSize
  /-- An error returned by the remote `eth2api` transport, opaque to this
  package. -/
  | remoteErr (msg : String)
  deriving DecidableEq, Repr

/-! ## The bounded LRU cache (`github.com/hashicorp/golang-lru`) -/

/-- First-match association-list lookup, the `map` half of the LRU cache. -/
def lookupList {K V : Type} [DecidableEq K] : List (K × V) → K → Option V
  | [], _ => none
  | p :: t, k => if p.1 = k then some p.2 else lookupList t k

/-- Remove the first entry with the given key, if any. -/
def eraseKey {K V : Type} [DecidableEq K] : List (K × V) → K → List (K × V)
  | [], _ => []
  | p :: t, k => if p.1 = k then t else p :: eraseKey t k

/-- The hashicorp LRU cache: a fixed capacity and the entries in
most-recently-used-first order. -/
structure Lru (K V : Type) where
  cap : Nat
  entries : List (K × V)
  deriving DecidableEq, Repr

namespace Lru

variable {K V : Type} [DecidableEq K]

/-- Pure membership read, used to state cache contents (no recency effect). -/
def lookup (c : Lru K V) (k : K) : Option V :=
  lookupList c.entries k

/-- `Cache.Get`: returns the stored value and marks the entry
most-recently-used.  A miss leaves the cache unchanged. -/
def get (c : Lru K V) (k : K) : Option V × Lru K V :=
  match c.lookup k with
  | none => (none, c)
  | some v => (some v, ⟨c.cap, (k, v) :: eraseKey c.entries k⟩)

/-- `Cache.Add`: insert or update the key at the most-recently-used position,
evicting the least-recently-used entry when the capacity is exceeded. -/
def add (c : Lru K V) (k : K) (v : V) : Lru K V :=
  ⟨c.cap, ((k, v) :: eraseKey c.entries k).take c.cap⟩

end Lru

/-- Fold `Add` over a list of key/value pairs, in order (the shape of every
cache-population loop of the source). -/
def foldAdd {K V : Type} [DecidableEq K] (c : Lru K V) (l : List (K × V)) : Lru K V :=
  l.foldl (fun c p => c.add p.1 p.2) c

/-- `lru.New(size)`: fails exactly when the requested size is not positive. -/
def lruNew (K V : Type) (size : Nat) : Except GoErr (Lru K V) :=
  if size = 0 then .error .badCacheSize else .ok ⟨size, []⟩

/-! ## Data model of the consensus package -/

/-- `ValidatorInfo` (the proposer-cache value type of the source). -/
structure ValidatorInfo where
  publicKey : PublicKey
  index : Nat
  deriving DecidableEq, Repr

/-- `eth2api.ValidatorResponse`, reduced to the fields this package reads:
the validator's public key (`validator.Validator.Pubkey`, the cache key in
`FetchValidators`) and its raw status string (`validator.Status`, read by
`GetValidatorStatus`). -/
structure ValidatorResponse where
  pubkey : PublicKey
  status : String
  deriving DecidableEq, Repr

/-- The dynamic type of a key stored in the validator cache.  The Go cache
key type is `interface{}`: `FetchValidators` stores the 48-byte public-key
*value* (`validator.Validator.Pubkey`), while `GetValidator` queries with the
`*types.PublicKey` *pointer* it received.  Go interface equality never
identifies a pointer with a non-pointer value, and two pointers are equal
exactly when they are the same address, so the two key shapes are kept
disjoint and a pointer key carries its address. -/
inductive VKey where
  | byValue (pk : PublicKey)
  | byPtr (addr : Nat)
  deriving DecidableEq, Repr

/-- A Go `*types.PublicKey`: an address together with the pointed-to value. -/
structure PkPtr where
  addr : Nat
  val : PublicKey
  deriving DecidableEq, Repr

/-- `ValidatorStatus` with its three constants `StatusValidatorActive`,
`StatusValidatorPending`, `StatusValidatorUnknown`.  Modelled from the spec:
the enumeration is declared in a file of this package that is not in `src/`;
the spec fixes it as {Active, Pending, Unknown}. -/
inductive ValidatorStatus where
  | active
  | pending
  | unknown
  deriving DecidableEq, Repr

/-- `types.Coordinate`: the (slot, block root) pair emitted by the head-event
stream.  Modelled from the spec (`pkg/types` is not in `src/`). -/
structure Coordinate where
  slot : Slot
  root : Root
  deriving DecidableEq, Repr

/-- The three caches owned by `consensus.Client` (logger and HTTP transport
omitted: they carry no cache state). -/
structure Client where
  proposerCache : Lru Slot ValidatorInfo
  executionCache : Lru Slot Hash
  validatorCache : Lru VKey ValidatorResponse
  deriving Repr

/-! ## Remote-call outcomes (the `eth2api` interface, an external collaborator)

Modelled from the spec: the transport is a black box whose per-call outcomes
follow the spec's disjoint error taxonomy (a block, a "no block at this
slot" report, or a transport/decode failure).  The `eth2api` convention maps
these onto the `(exists bool, err error)` pair the Go code consumes: the
`exists` flag is false exactly for the "resource not found" report, while a
transport or decode failure is reported through a non-nil `err`. -/

/-- The body of a `VersionedSignedBeaconBlock`: either a bellatrix block
carrying its execution-payload block hash, or some other version (on which
the source's type assertion fails). -/
inductive BlockData where
  | bellatrix (execHash : Hash)
  | other
  deriving DecidableEq, Repr

/-- Outcome of one `beaconapi.BlockV2` call, in the spec's disjoint
taxonomy. -/
inductive BlockOutcome where
  | block (data : BlockData)
  | notFound
  | failure (e : GoErr)
  deriving DecidableEq, Repr

/-- The `exists` flag of the `(exists, err)` pair returned by `BlockV2`:
false exactly when the node reported that no block exists. -/
def BlockOutcome.exists_ : BlockOutcome → Bool
  | .notFound => false
  | _ => true

/-- The `err` component of the `(exists, err)` pair returned by `BlockV2`. -/
def BlockOutcome.errOf : BlockOutcome → Option GoErr
  | .failure e => some e
  | _ => none

/-- The decoded destination of a successful `BlockV2` call (arbitrary zero
value in the branches where the source never reads it). -/
def BlockOutcome.dataOf : BlockOutcome → BlockData
  | .block d => d
  | _ => .other

/-- Outcome of one `validatorapi.ProposerDuties` call: the `syncing` flag,
the `err` value, and the decoded duty list.  A duty is the
(slot, pubkey, validator index) triple of the wire format. -/
structure ProposerDuty where
  slot : Slot
  pubkey : PublicKey
  validatorIndex : Nat
  deriving DecidableEq, Repr

/-- The `(syncing, err)` pair and decoded data of `ProposerDuties`. -/
structure ProposersOutcome where
  syncing : Bool
  err : Option GoErr
  duties : List ProposerDuty
  deriving DecidableEq, Repr

/-- The `(exists, err)` pair and decoded data of `beaconapi.StateValidators`. -/
structure ValidatorsOutcome where
  exists_ : Bool
  err : Option GoErr
  data : List ValidatorResponse
  deriving DecidableEq, Repr

/-- The remote consensus node, as the family of outcomes its endpoints would
return during one client call sequence. -/
structure RemoteNode where
  blockAt : Slot → BlockOutcome
  proposerDuties : Epoch → ProposersOutcome
  stateValidators : ValidatorsOutcome

/-! ## The client operations (`src/unnamed/part_001`) -/

/-- `Client.GetProposer`: pure cache read of the proposer cache.  The
"unexpected type" branch of the source cannot fire in the typed embedding
(the cache only ever holds `ValidatorInfo` values, as in the source). -/
def GetProposer (c : Lru Slot ValidatorInfo) (slot : Slot) :
    Except GoErr ValidatorInfo × Lru Slot ValidatorInfo :=
  match c.get slot with
  | (none, c') => (.error (.missingProposer slot), c')
  | (some v, c') => (.ok v, c')

/-- `Client.GetExecutionHash`: pure cache read of the execution cache. -/
def GetExecutionHash (c : Lru Slot Hash) (slot : Slot) :
    Except GoErr Hash × Lru Slot Hash :=
  match c.get slot with
  | (none, c') => (.error (.missingExecutionHash slot), c')
  | (some h, c') => (.ok h, c')

/-- `Client.GetValidator`: cache read of the validator cache, keyed by the
`*types.PublicKey` pointer the caller passed (see `VKey`). -/
def GetValidator (c : Lru VKey ValidatorResponse) (publicKey : PkPtr) :
    Except GoErr ValidatorResponse × Lru VKey ValidatorResponse :=
  match c.get (VKey.byPtr publicKey.addr) with
  | (none, c') => (.error (.missingValidator publicKey.addr), c')
  | (some v, c') => (.ok v, c')

/-- `Client.GetProposerPublicKey`: thin wrapper over `GetProposer`, wrapping
its error. -/
def GetProposerPublicKey (c : Lru Slot ValidatorInfo) (slot : Slot) :
    Except GoErr PublicKey × Lru Slot ValidatorInfo :=
  match GetProposer c slot with
  | (.error e, c') => (.error (.missingProposerFor slot e), c')
  | (.ok v, c') => (.ok v.publicKey, c')

/-- `Client.FetchProposers`: on the node syncing, or on a remote error, fail
without touching the cache; otherwise insert every duty as
`uint64(duty.Slot) ↦ ValidatorInfo{pubkey, index}`. -/
def FetchProposers (epoch : Epoch) (o : ProposersOutcome)
    (c : Lru Slot ValidatorInfo) : Except GoErr Unit × Lru Slot ValidatorInfo :=
  if o.syncing then
    (.error (.nodeSyncing epoch), c)
  else
    match o.err with
    | some e => (.error e, c)
    | none =>
      (.ok (),
        foldAdd c (o.duties.map fun d => (d.slot, ⟨d.pubkey, d.validatorIndex⟩)))

/-- The inner loop of `backFillExecutionHash`:
`for i := targetSlot; i < slot; i++ { executionCache.Add(i+1, hash) }`. -/
def fillForward (c : Lru Slot Hash) (hash : Hash) (targetSlot slot : Slot) :
    Lru Slot Hash :=
  foldAdd c ((List.range' targetSlot (slot - targetSlot)).map fun i => (i + 1, hash))

/-- The outer loop of `backFillExecutionHash`:
`for i := slot; i > 0; i--`, reading `targetSlot := i - 1` each iteration,
filling forward and returning on the first cached hit. -/
def backFillLoop (slot : Slot) : Nat → Lru Slot Hash →
    Except GoErr Hash × Lru Slot Hash
  | 0, c => (.error (.backfillExhausted slot), c)
  | i + 1, c =>
    match c.get i with
    | (some h, c') => (.ok h, fillForward c' h i slot)
    | (none, c') => backFillLoop slot i c'

/-- `Client.backFillExecutionHash`. -/
def backFillExecutionHash (c : Lru Slot Hash) (slot : Slot) :
    Except GoErr Hash × Lru Slot Hash :=
  backFillLoop slot slot c

/-- `Client.FetchExecutionHash`: cache-read-through; on a miss, query the
remote node for the signed block at `slot`, keeping the source's branch
order: `if !exists` falls back to the backfill, `else if err != nil`
propagates the error, otherwise the bellatrix execution-payload block hash is
extracted, cached and returned. -/
def FetchExecutionHash (remote : Slot → BlockOutcome) (c : Lru Slot Hash)
    (slot : Slot) : Except GoErr Hash × Lru Slot Hash :=
  match c.get slot with
  | (some h, c') => (.ok h, c')
  | (none, c') =>
    let r := remote slot
    if r.exists_ = false then
      backFillExecutionHash c' slot
    else
      match r.errOf with
      | some e => (.error e, c')
      | none =>
        match r.dataOf with
        | .bellatrix h => (.ok h, c'.add slot h)
        | .other => (.error .parseBlock, c')

/-- `Client.GetParentHash`: `targetSlot := slot - 1` in `uint64` arithmetic
(wrapping at 0), then a cache read with a fetch fallback on a miss. -/
def GetParentHash (remote : Slot → BlockOutcome) (c : Lru Slot Hash)
    (slot : Slot) : Except GoErr Hash × Lru Slot Hash :=
  let targetSlot := (slot + (U64 - 1)) % U64
  match GetExecutionHash c targetSlot with
  | (.ok h, c') => (.ok h, c')
  | (.error _, c') => FetchExecutionHash remote c' targetSlot

/-- `Client.FetchValidators`: on a remote error propagate it, on an absent
response fail, otherwise cache every validator record under its public-key
*value* (`validator.Validator.Pubkey`). -/
def FetchValidators (o : ValidatorsOutcome) (c : Lru VKey ValidatorResponse) :
    Except GoErr Unit × Lru VKey ValidatorResponse :=
  match o.err with
  | some e => (.error e, c)
  | none =>
    if o.exists_ = false then
      (.error .validatorsNotExist, c)
    else
      (.ok (), foldAdd c (o.data.map fun v => (VKey.byValue v.pubkey, v)))

/-- Go `strings.Contains(s, sub)`: `sub` occurs contiguously in `s`. -/
def goContains (s sub : String) : Bool :=
  decide (sub.data <:+: s.data)

/-- `Client.GetValidatorStatus`: look the record up through `GetValidator`
(returning its error on a miss), then classify the raw status string by
substring. -/
def GetValidatorStatus (c : Lru VKey ValidatorResponse) (publicKey : PkPtr) :
    (ValidatorStatus × Option GoErr) × Lru VKey ValidatorResponse :=
  match GetValidator c publicKey with
  | (.error e, c') => ((.unknown, some e), c')
  | (.ok v, c') =>
    if goContains v.status "active" then ((.active, none), c')
    else if goContains v.status "pending" then ((.pending, none), c')
    else ((.unknown, none), c')

/-! ## Head-event streaming (`StreamHeads`) -/

/-- One raw wire event of the "head" SSE subscription, at the granularity the
handler observes it: either `json.Unmarshal` rejects the payload, or it
decodes into the `headEvent` struct carrying the slot as text and the block
root (a payload that parses as JSON but lacks the fields decodes to their
zero values, i.e. `headEv "" root`). -/
inductive RawEvent where
  | malformed
  | headEv (slot : String) (block : Root)
  deriving DecidableEq, Repr

/-- The numeric value of a decimal digit character, if it is one. -/
def digitVal? (c : Char) : Option Nat :=
  if '0' ≤ c ∧ c ≤ '9' then some (c.toNat - '0'.toNat) else none

/-- Accumulate a base-10 digit string; fails on any non-digit. -/
def digitsLoop : List Char → Nat → Option Nat
  | [], acc => some acc
  | c :: t, acc =>
    match digitVal? c with
    | none => none
    | some d => digitsLoop t (acc * 10 + d)

/-- Go `strconv.Atoi` (i.e. `ParseInt(s, 10, 0)` with 64-bit `int`): an
optional sign followed by at least one decimal digit, rejected when empty,
on any other character, or out of the `int64` range. -/
def goAtoi (s : String) : Option Int :=
  match s.data with
  | [] => none
  | c :: rest =>
    let signAndDigits : Bool × List Char :=
      if c = '-' then (true, rest)
      else if c = '+' then (false, rest)
      else (false, c :: rest)
    match signAndDigits.2 with
    | [] => none
    | ds =>
      match digitsLoop ds 0 with
      | none => none
      | some n =>
        let v : Int := if signAndDigits.1 then -(n : Int) else (n : Int)
        if v < -(2 ^ 63) ∨ (2 ^ 63 - 1 : Int) < v then none else some v

/-- The Go conversion `types.Slot(slot)` from `int` to `uint64`: two's
complement reduction modulo `2 ^ 64`. -/
def intToSlot (n : Int) : Slot :=
  (n % (U64 : Int)).toNat

/-- The event handler of `StreamHeads`, applied to a finite sequence of raw
wire events: each is decoded independently; an unmarshalling failure or a
non-numeric slot is logged and dropped, a well-formed event emits one
`Coordinate` into the channel.  The channel delivery itself is concurrency
and stays outside the embedding; the emitted sequence is returned in order. -/
def StreamHeads : List RawEvent → List Coordinate
  | [] => []
  | .malformed :: rest => StreamHeads rest
  | .headEv s b :: rest =>
    match goAtoi s with
    | none => StreamHeads rest
    | some n => ⟨intToSlot n, b⟩ :: StreamHeads rest

/-- Stated from the claim's words, for comparison with `StreamHeads`: a
well-formed event (JSON carrying a numeric decimal slot string) yields
exactly one `Coordinate`; a malformed event yields nothing. -/
def specEmit : RawEvent → Option Coordinate
  | .malformed => none
  | .headEv s b => (goAtoi s).map fun n => ⟨intToSlot n, b⟩

/-! ## Client construction (`NewClient`, `loadCurrentContext`) -/

/-- The slots visited by the warmup loop of `loadCurrentContext`:
`baseSlot := currentSlot - slotsPerEpoch` when `currentSlot > slotsPerEpoch`
(else 0), then `for i := baseSlot; i < slotsPerEpoch; i++`. -/
def warmupSlots (currentSlot slotsPerEpoch : Nat) : List Slot :=
  let baseSlot := if currentSlot > slotsPerEpoch then currentSlot - slotsPerEpoch else 0
  List.range' baseSlot (slotsPerEpoch - baseSlot)

/-- `Client.loadCurrentContext`: warm the execution cache over the warmup
window, then fetch the proposers of the current and next epoch and the
validator set.  Every per-step error is logged and discarded (the Go
function always returns `nil`), so only the resulting cache state remains. -/
def loadCurrentContext (remote : RemoteNode) (cl : Client)
    (currentSlot : Slot) (currentEpoch : Epoch) (slotsPerEpoch : Nat) : Client :=
  let ec := (warmupSlots currentSlot slotsPerEpoch).foldl
    (fun ec i => (FetchExecutionHash remote.blockAt ec i).2) cl.executionCache
  let pc := (FetchProposers currentEpoch (remote.proposerDuties currentEpoch)
    cl.proposerCache).2
  let pc := (FetchProposers (currentEpoch + 1)
    (remote.proposerDuties (currentEpoch + 1)) pc).2
  let vc := (FetchValidators remote.stateValidators cl.validatorCache).2
  { proposerCache := pc, executionCache := ec, validatorCache := vc }

/-- `consensus.NewClient`: construct the three caches with `lru.New(128)`
(`cacheSize`), then attempt the warmup; a warmup failure is only logged and
the client is returned regardless. -/
def NewClient (remote : RemoteNode) (currentSlot : Slot) (currentEpoch : Epoch)
    (slotsPerEpoch : Nat) : Except GoErr Client :=
  match lruNew Slot ValidatorInfo 128 with
  | .error e => .error e
  | .ok proposerCache =>
    match lruNew Slot Hash 128 with
    | .error e => .error e
    | .ok executionCache =>
      match lruNew VKey ValidatorResponse 128 with
      | .error e => .error e
      | .ok validatorCache =>
        .ok (loadCurrentContext remote
          ⟨proposerCache, executionCache, validatorCache⟩
          currentSlot currentEpoch slotsPerEpoch)

/-! ## Invariants of the LRU embedding -/

/-- The entry `(k, v)` sits in the cache's entry list with fewer than `n`
entries in front of it, none of them keyed `k`. -/
def atFront {K V : Type} (c : Lru K V) (k : K) (v : V) (n : Nat) : Prop :=
  ∃ pre post, c.entries = pre ++ (k, v) :: post ∧
    (∀ p ∈ pre, p.1 ≠ k) ∧ pre.length < n

theorem lookupList_append_of_not_mem {K V : Type} [DecidableEq K]
    (pre rest : List (K × V)) (k : K) (h : ∀ p ∈ pre, p.1 ≠ k) :
    lookupList (pre ++ rest) k = lookupList rest k := by
  induction pre with
  | nil => rfl
  | cons q t ih =>
    have hq : q.1 ≠ k := h q (List.mem_cons_self q t)
    simp only [List.cons_append, lookupList, if_neg hq]
    exact ih fun p hp => h p (List.mem_cons_of_mem q hp)

theorem Lru.lookup_of_atFront {K V : Type} [DecidableEq K]
    {c : Lru K V} {k : K} {v : V} {n : Nat} (h : atFront c k v n) :
    c.lookup k = some v := by
  obtain ⟨pre, post, he, hpre, -⟩ := h
  rw [Lru.lookup, he, lookupList_append_of_not_mem pre _ k hpre]
  simp [lookupList]

theorem atFront_mono {K V : Type} {c : Lru K V} {k : K} {v : V} {n m : Nat}
    (h : atFront c k v n) (hnm : n ≤ m) : atFront c k v m := by
  obtain ⟨pre, post, he, hpre, hlen⟩ := h
  exact ⟨pre, post, he, hpre, lt_of_lt_of_le hlen hnm⟩

theorem eraseKey_decomp {K V : Type} [DecidableEq K]
    (pre post : List (K × V)) (k k' : K) (v : V)
    (hpre : ∀ p ∈ pre, p.1 ≠ k) (hne : k' ≠ k) :
    ∃ pre₂ post₂, eraseKey (pre ++ (k, v) :: post) k' = pre₂ ++ (k, v) :: post₂ ∧
      pre₂.length ≤ pre.length ∧ ∀ p ∈ pre₂, p.1 ≠ k := by
  induction pre with
  | nil =>
    refine ⟨[], eraseKey post k', ?_, by simp, by simp⟩
    simp only [List.nil_append, eraseKey]
    rw [if_neg fun hh => hne hh.symm]
  | cons q t ih =>
    by_cases hq : q.1 = k'
    · refine ⟨t, post, ?_, by simp, fun p hp => hpre p (List.mem_cons_of_mem q hp)⟩
      simp only [List.cons_append, eraseKey, if_pos hq, List.append_eq]
    · obtain ⟨pre₂, post₂, herase, hlen₂, hpre₂⟩ :=
        ih fun p hp => hpre p (List.mem_cons_of_mem q hp)
      refine ⟨q :: pre₂, post₂, ?_, by simpa using Nat.succ_le_succ hlen₂, ?_⟩
      · simp only [List.cons_append, eraseKey, if_neg hq, List.append_eq, herase]
      · intro p hp
        rcases List.mem_cons.1 hp with rfl | hp
        · exact hpre p (List.mem_cons_self p t)
        · exact hpre₂ p hp

theorem take_append_cons_of_lt {α : Type} (pre : List α) (x : α) (post : List α)
    (n : Nat) (h : pre.length < n) :
    (pre ++ x :: post).take n = pre ++ x :: post.take (n - pre.length - 1) := by
  induction pre generalizing n with
  | nil =>
    cases n with
    | zero => omega
    | succ m => simp [List.take_succ_cons]
  | cons a t ih =>
    cases n with
    | zero => omega
    | succ m =>
      simp only [List.cons_append, List.take_succ_cons]
      rw [ih m (by simpa using Nat.lt_of_succ_lt_succ h)]
      have harith : m + 1 - (a :: t).length - 1 = m - t.length - 1 := by
        simp only [List.length_cons]
        omega
      rw [harith]

theorem atFront_add_self {K V : Type} [DecidableEq K] (c : Lru K V) (k : K) (v : V)
    (hcap : 1 ≤ c.cap) : atFront (c.add k v) k v 1 := by
  refine ⟨[], (eraseKey c.entries k).take (c.cap - 1), ?_, by simp, by simp⟩
  show ((k, v) :: eraseKey c.entries k).take c.cap =
    [] ++ (k, v) :: (eraseKey c.entries k).take (c.cap - 1)
  obtain ⟨m, hm⟩ : ∃ m, c.cap = m + 1 := ⟨c.cap - 1, by omega⟩
  rw [hm]
  simp [List.take_succ_cons]

theorem atFront_add_ne {K V : Type} [DecidableEq K]
    {c : Lru K V} {k : K} {v : V} {n : Nat}
    (h : atFront c k v n) (k' : K) (v' : V) (hne : k' ≠ k) (hn : n < c.cap) :
    atFront (c.add k' v') k v (n + 1) := by
  obtain ⟨pre, post, he, hpre, hlen⟩ := h
  obtain ⟨pre₂, post₂, herase, hlen₂, hpre₂⟩ := eraseKey_decomp pre post k k' v hpre hne
  have hlt : ((k', v') :: pre₂).length < c.cap := by
    simp only [List.length_cons]
    omega
  refine ⟨(k', v') :: pre₂, post₂.take (c.cap - pre₂.length - 2), ?_, ?_, ?_⟩
  · show ((k', v') :: eraseKey c.entries k').take c.cap = _
    rw [he, herase,
      show (k', v') :: (pre₂ ++ (k, v) :: post₂) = ((k', v') :: pre₂) ++ (k, v) :: post₂
        from rfl,
      take_append_cons_of_lt _ _ _ _ hlt]
    simp only [List.length_cons]
    have harith : c.cap - (pre₂.length + 1) - 1 = c.cap - pre₂.length - 2 := by omega
    rw [harith]
  · intro p hp
    rcases List.mem_cons.1 hp with rfl | hp
    · exact hne
    · exact hpre₂ p hp
  · simp only [List.length_cons]
    omega

theorem Lru.cap_add {K V : Type} [DecidableEq K] (c : Lru K V) (k : K) (v : V) :
    (c.add k v).cap = c.cap := rfl

theorem cap_foldAdd {K V : Type} [DecidableEq K] (c : Lru K V) (l : List (K × V)) :
    (foldAdd c l).cap = c.cap := by
  induction l generalizing c with
  | nil => rfl
  | cons p t ih => simpa [foldAdd] using ih (c.add p.1 p.2)

theorem foldAdd_append {K V : Type} [DecidableEq K]
    (c : Lru K V) (l : List (K × V)) (p : K × V) :
    foldAdd c (l ++ [p]) = (foldAdd c l).add p.1 p.2 := by
  simp [foldAdd, List.foldl_append]

/-- After folding `Add` over a list that fits in the capacity, any key all of
whose bound values agree is present with that value. -/
theorem foldAdd_atFront {K V : Type} [DecidableEq K]
    (l : List (K × V)) (c : Lru K V) (k : K) (v : V)
    (hmem : (k, v) ∈ l) (huniq : ∀ p ∈ l, p.1 = k → p.2 = v)
    (hlen : l.length ≤ c.cap) :
    atFront (foldAdd c l) k v l.length := by
  induction l using List.reverseRecOn with
  | nil => simp at hmem
  | append_singleton t p ih =>
    rw [foldAdd_append]
    have hcap1 : 1 ≤ c.cap := le_trans (by simp) hlen
    by_cases hp : p.1 = k
    · have hpv : p.2 = v := huniq p (by simp) hp
      rw [hp, hpv]
      refine atFront_mono (atFront_add_self _ _ _ ?_) (by simp)
      rw [cap_foldAdd]
      exact hcap1
    · have hmem' : (k, v) ∈ t := by
        rcases List.mem_append.1 hmem with h | h
        · exact h
        · simp only [List.mem_singleton] at h
          rw [← h] at hp
          exact absurd rfl hp
      have hstep := ih hmem'
        (fun q hq hqk => huniq q (List.mem_append_left _ hq) hqk)
        (le_trans (by simp) hlen)
      have hlt : t.length < (foldAdd c t).cap := by
        rw [cap_foldAdd]
        have := hlen
        simp only [List.length_append, List.length_singleton] at this
        omega
      have := atFront_add_ne hstep p.1 p.2 hp hlt
      simpa using this

theorem Lru.get_of_lookup_none {K V : Type} [DecidableEq K] {c : Lru K V} {k : K}
    (h : c.lookup k = none) : c.get k = (none, c) := by
  simp [Lru.get, h]

theorem Lru.get_of_lookup_some {K V : Type} [DecidableEq K]
    {c : Lru K V} {k : K} {v : V} (h : c.lookup k = some v) :
    c.get k = (some v, ⟨c.cap, (k, v) :: eraseKey c.entries k⟩) := by
  simp [Lru.get, h]

/-- One miss step of the backfill walk. -/
theorem backFillLoop_step (slot i : Slot) (c : Lru Slot Hash)
    (h : c.lookup i = none) :
    backFillLoop slot (i + 1) c = backFillLoop slot i c := by
  simp [backFillLoop, Lru.get_of_lookup_none h]

/-- The hit step of the backfill walk: the found hash is filled forward. -/
theorem backFillLoop_hit (slot i : Slot) (c : Lru Slot Hash) (H : Hash)
    (h : c.lookup i = some H) :
    backFillLoop slot (i + 1) c =
      (.ok H, fillForward ⟨c.cap, (i, H) :: eraseKey c.entries i⟩ H i slot) := by
  simp [backFillLoop, Lru.get_of_lookup_some h]

/-- On an empty cache the whole walk fails, leaving the cache unchanged. -/
theorem backFillLoop_of_nil (slot : Slot) (c : Lru Slot Hash)
    (h : c.entries = []) (i : Nat) :
    backFillLoop slot i c = (.error (.backfillExhausted slot), c) := by
  induction i with
  | zero => rfl
  | succ m ih =>
    have hl : c.lookup m = none := by simp [Lru.lookup, h, lookupList]
    rw [backFillLoop_step slot m c hl]
    exact ih

/-! ## Claim theorems -/

/-- Claim C1 (refuted, code bug): a successful `FetchValidators` does cache
the record under the public-key *value*, yet a subsequent `GetValidator`
with (a pointer to) that very public key returns the NotFound error for
every possible pointer, because the lookup key is the pointer itself while
the stored key is the 48-byte value. -/
theorem FetchValidators_GetValidator_roundTrip_fails :
    (FetchValidators ⟨true, none, [⟨⟨[1]⟩, "active_ongoing"⟩]⟩ ⟨128, []⟩).1 = .ok () ∧
    (FetchValidators ⟨true, none, [⟨⟨[1]⟩, "active_ongoing"⟩]⟩ ⟨128, []⟩).2.lookup
      (VKey.byValue ⟨[1]⟩) = some ⟨⟨[1]⟩, "active_ongoing"⟩ ∧
    ∀ addr : Nat,
      (GetValidator
        (FetchValidators ⟨true, none, [⟨⟨[1]⟩, "active_ongoing"⟩]⟩ ⟨128, []⟩).2
        ⟨addr, ⟨[1]⟩⟩).1 = .error (.missingValidator addr) := by
  refine ⟨rfl, rfl, fun addr => ?_⟩
  have hfv : (FetchValidators ⟨true, none, [⟨⟨[1]⟩, "active_ongoing"⟩]⟩
      (⟨128, []⟩ : Lru VKey ValidatorResponse)).2 =
      ⟨128, [(VKey.byValue ⟨[1]⟩, ⟨⟨[1]⟩, "active_ongoing"⟩)]⟩ := rfl
  rw [hfv]
  simp [GetValidator, Lru.get, Lru.lookup, lookupList]

/-- Claim C3: on a cache miss, when the remote block query fails with a
transport or decode error (as opposed to the node reporting that no block
exists), `FetchExecutionHash` returns that error, leaves the cache
unchanged, and does not fall back to the backfill. -/
theorem FetchExecutionHash_propagates_failure
    (slot : Slot) (remote : Slot → BlockOutcome) (c : Lru Slot Hash) (e : GoErr)
    (hmiss : c.lookup slot = none) (hrem : remote slot = .failure e) :
    FetchExecutionHash remote c slot = (.error e, c) := by
  simp [FetchExecutionHash, Lru.get_of_lookup_none hmiss, hrem,
    BlockOutcome.exists_, BlockOutcome.errOf]

/-- Witness for C3: a transport failure at slot 3 on an empty cache
propagates verbatim. -/
theorem FetchExecutionHash_propagates_failure_witness :
    FetchExecutionHash (fun _ => .failure (.remoteErr "connection refused"))
      ⟨128, []⟩ 3 = (.error (.remoteErr "connection refused"), ⟨128, []⟩) :=
  FetchExecutionHash_propagates_failure 3
    (fun _ => .failure (.remoteErr "connection refused")) ⟨128, []⟩
    (.remoteErr "connection refused") rfl rfl

/-- Claim C5 (refuted, code bug): the record with status "active_ongoing" is
present in the cache (stored by `FetchValidators`) and its status does
contain "active", yet `GetValidatorStatus` returns (Unknown, NotFound error)
instead of (Active, no error), because the `GetValidator` lookup is keyed by
the pointer and always misses. -/
theorem GetValidatorStatus_cached_active_still_errors :
    (FetchValidators ⟨true, none, [⟨⟨[2]⟩, "active_ongoing"⟩]⟩ ⟨128, []⟩).2.lookup
      (VKey.byValue ⟨[2]⟩) = some ⟨⟨[2]⟩, "active_ongoing"⟩ ∧
    goContains "active_ongoing" "active" = true ∧
    (GetValidatorStatus
      (FetchValidators ⟨true, none, [⟨⟨[2]⟩, "active_ongoing"⟩]⟩ ⟨128, []⟩).2
      ⟨0, ⟨[2]⟩⟩).1 = (.unknown, some (.missingValidator 0)) := by
  refine ⟨rfl, by decide, rfl⟩

/-- Claim C6: when `FetchProposers` fails — the node reporting it is syncing,
or a remote transport/decoding error — the proposer cache is returned
unchanged: the call adds no entry. -/
theorem FetchProposers_failure_leaves_cache_unchanged
    (epoch : Epoch) (o : ProposersOutcome) (c : Lru Slot ValidatorInfo)
    (h : o.syncing = true ∨ ∃ e, o.err = some e) :
    ∃ e, FetchProposers epoch o c = (.error e, c) := by
  by_cases hs : o.syncing
  · exact ⟨.nodeSyncing epoch, by simp [FetchProposers, hs]⟩
  · rcases h with h | ⟨e, he⟩
    · exact absurd h hs
    · exact ⟨e, by simp [FetchProposers, hs, he]⟩

/-- Witness for C6 at a concrete syncing outcome. -/
theorem FetchProposers_failure_leaves_cache_unchanged_witness :
    ∃ e, FetchProposers 5 ⟨true, none, []⟩ ⟨128, []⟩ = (.error e, ⟨128, []⟩) :=
  FetchProposers_failure_leaves_cache_unchanged 5 ⟨true, none, []⟩ ⟨128, []⟩
    (Or.inl rfl)

/-- Claim C7: with an empty execution-hash cache, a fetch whose remote
reports no block at the slot falls into the backfill, which exhausts and
fails with the backfill-exhausted error for every slot, returning no hash
and leaving the cache unchanged. -/
theorem FetchExecutionHash_empty_cache_backfillExhausted
    (slot : Slot) (remote : Slot → BlockOutcome) (c : Lru Slot Hash)
    (hc : c.entries = []) (hrem : remote slot = .notFound) :
    FetchExecutionHash remote c slot = (.error (.backfillExhausted slot), c) := by
  have hlk : c.lookup slot = none := by simp [Lru.lookup, hc, lookupList]
  have h1 : FetchExecutionHash remote c slot = backFillExecutionHash c slot := by
    simp [FetchExecutionHash, Lru.get_of_lookup_none hlk, hrem, BlockOutcome.exists_]
  rw [h1]
  exact backFillLoop_of_nil slot c hc slot

/-- Witness for C7 at slot 0 (included: the walk body does not run at all). -/
theorem FetchExecutionHash_empty_cache_backfillExhausted_witness :
    FetchExecutionHash (fun _ => .notFound) ⟨128, []⟩ 0 =
      (.error (.backfillExhausted 0), ⟨128, []⟩) :=
  FetchExecutionHash_empty_cache_backfillExhausted 0 (fun _ => .notFound)
    ⟨128, []⟩ rfl rfl

/-- Claim C10: `GetParentHash` at slot 0 does not fail on an out-of-range
input: the `uint64` subtraction wraps, so the call reads the cache at slot
`2 ^ 64 - 1` and, on a miss there, delegates to `FetchExecutionHash` for slot
`2 ^ 64 - 1`. -/
theorem GetParentHash_slot_zero_wraps
    (remote : Slot → BlockOutcome) (c : Lru Slot Hash) (h : Hash) :
    (c.lookup (2 ^ 64 - 1) = some h → (GetParentHash remote c 0).1 = .ok h) ∧
    (c.lookup (2 ^ 64 - 1) = none →
      GetParentHash remote c 0 = FetchExecutionHash remote c (2 ^ 64 - 1)) := by
  constructor
  · intro hh
    norm_num at hh
    simp [GetParentHash, GetExecutionHash, U64, Lru.get_of_lookup_some hh]
  · intro hh
    norm_num at hh
    simp [GetParentHash, GetExecutionHash, U64, Lru.get_of_lookup_none hh]

/-- Witness for C10: a hit and a miss at slot `2 ^ 64 - 1`, both reached
from a `GetParentHash` call at slot 0. -/
theorem GetParentHash_slot_zero_wraps_witness :
    (GetParentHash (fun _ => .notFound) ⟨128, [(2 ^ 64 - 1, ⟨[9]⟩)]⟩ 0).1 =
      .ok ⟨[9]⟩ ∧
    GetParentHash (fun _ => .notFound) (⟨128, []⟩ : Lru Slot Hash) 0 =
      FetchExecutionHash (fun _ => .notFound) ⟨128, []⟩ (2 ^ 64 - 1) :=
  ⟨(GetParentHash_slot_zero_wraps (fun _ => .notFound)
      ⟨128, [(2 ^ 64 - 1, ⟨[9]⟩)]⟩ ⟨[9]⟩).1 rfl,
   (GetParentHash_slot_zero_wraps (fun _ => .notFound)
      (⟨128, []⟩ : Lru Slot Hash) ⟨[9]⟩).2 rfl⟩

/-- Claim C2: with hash `H` cached at slot 10 and nothing cached at slots
11–14, `FetchExecutionHash` at slot 14 (the remote reporting no block there)
returns `H`, and afterwards `GetExecutionHash` returns `H` for each of the
slots 11, 12, 13 and 14: the backfill propagates the nearest earlier cached
hash to every slot in (10, 14]. -/
theorem FetchExecutionHash_backfill_propagates
    (c : Lru Slot Hash) (H : Hash) (remote : Slot → BlockOutcome)
    (hcap : c.cap = 128)
    (h10 : c.lookup 10 = some H)
    (h11 : c.lookup 11 = none) (h12 : c.lookup 12 = none)
    (h13 : c.lookup 13 = none) (h14 : c.lookup 14 = none)
    (hrem : remote 14 = .notFound) :
    (FetchExecutionHash remote c 14).1 = .ok H ∧
    (GetExecutionHash (FetchExecutionHash remote c 14).2 11).1 = .ok H ∧
    (GetExecutionHash (FetchExecutionHash remote c 14).2 12).1 = .ok H ∧
    (GetExecutionHash (FetchExecutionHash remote c 14).2 13).1 = .ok H ∧
    (GetExecutionHash (FetchExecutionHash remote c 14).2 14).1 = .ok H := by
  have hwalk : backFillLoop 14 14 c =
      (.ok H, fillForward ⟨c.cap, (10, H) :: eraseKey c.entries 10⟩ H 10 14) := by
    have e3 : backFillLoop 14 14 c = backFillLoop 14 13 c :=
      backFillLoop_step 14 13 c h13
    have e2 : backFillLoop 14 13 c = backFillLoop 14 12 c :=
      backFillLoop_step 14 12 c h12
    have e1 : backFillLoop 14 12 c = backFillLoop 14 11 c :=
      backFillLoop_step 14 11 c h11
    have e0 : backFillLoop 14 11 c =
        (.ok H, fillForward ⟨c.cap, (10, H) :: eraseKey c.entries 10⟩ H 10 14) :=
      backFillLoop_hit 14 10 c H h10
    rw [e3, e2, e1, e0]
  have hfetch : FetchExecutionHash remote c 14 =
      (.ok H, fillForward ⟨c.cap, (10, H) :: eraseKey c.entries 10⟩ H 10 14) := by
    have h1 : FetchExecutionHash remote c 14 = backFillExecutionHash c 14 := by
      simp [FetchExecutionHash, Lru.get_of_lookup_none h14, hrem, BlockOutcome.exists_]
    rw [h1]
    exact hwalk
  have hfill : ∀ j, 11 ≤ j → j ≤ 14 →
      (fillForward ⟨c.cap, (10, H) :: eraseKey c.entries 10⟩ H 10 14).lookup j =
        some H := by
    intro j hj1 hj2
    have hl : fillForward (⟨c.cap, (10, H) :: eraseKey c.entries 10⟩ : Lru Slot Hash)
        H 10 14 =
        foldAdd ⟨c.cap, (10, H) :: eraseKey c.entries 10⟩
          [(11, H), (12, H), (13, H), (14, H)] := rfl
    rw [hl]
    refine Lru.lookup_of_atFront
      (foldAdd_atFront _ ⟨c.cap, (10, H) :: eraseKey c.entries 10⟩ j H ?_ ?_ ?_)
    · interval_cases j <;> simp
    · intro p hp hpj
      simp only [List.mem_cons, List.not_mem_nil, or_false] at hp
      rcases hp with rfl | rfl | rfl | rfl <;> rfl
    · show (4 : Nat) ≤ c.cap
      omega
  have hg : ∀ j, 11 ≤ j → j ≤ 14 →
      (GetExecutionHash
        (fillForward ⟨c.cap, (10, H) :: eraseKey c.entries 10⟩ H 10 14) j).1 =
        .ok H := by
    intro j hj1 hj2
    simp [GetExecutionHash, Lru.get_of_lookup_some (hfill j hj1 hj2)]
  rw [hfetch]
  exact ⟨rfl, hg 11 (by norm_num) (by norm_num), hg 12 (by norm_num) (by norm_num),
    hg 13 (by norm_num) (by norm_num), hg 14 (by norm_num) (by norm_num)⟩

/-- Witness for C2 at the concrete cache holding only slot 10. -/
theorem FetchExecutionHash_backfill_propagates_witness :
    (FetchExecutionHash (fun _ => .notFound) ⟨128, [(10, ⟨[7]⟩)]⟩ 14).1 =
      .ok ⟨[7]⟩ ∧
    (GetExecutionHash (FetchExecutionHash (fun _ => .notFound)
      ⟨128, [(10, ⟨[7]⟩)]⟩ 14).2 11).1 = .ok ⟨[7]⟩ ∧
    (GetExecutionHash (FetchExecutionHash (fun _ => .notFound)
      ⟨128, [(10, ⟨[7]⟩)]⟩ 14).2 12).1 = .ok ⟨[7]⟩ ∧
    (GetExecutionHash (FetchExecutionHash (fun _ => .notFound)
      ⟨128, [(10, ⟨[7]⟩)]⟩ 14).2 13).1 = .ok ⟨[7]⟩ ∧
    (GetExecutionHash (FetchExecutionHash (fun _ => .notFound)
      ⟨128, [(10, ⟨[7]⟩)]⟩ 14).2 14).1 = .ok ⟨[7]⟩ :=
  FetchExecutionHash_backfill_propagates ⟨128, [(10, ⟨[7]⟩)]⟩ ⟨[7]⟩
    (fun _ => .notFound) rfl rfl rfl rfl rfl rfl rfl

/-- Counterexample to claim C4 as stated: `FetchProposers` succeeds on a
duty list that contains (slot 100, pubkey [1], index 7) but also a later
duty for the same slot; `GetProposer(100)` then returns the later entry,
not {[1], 7}. -/
theorem FetchProposers_duplicate_slot_overwrites :
    ((⟨100, ⟨[1]⟩, 7⟩ : ProposerDuty) ∈
      ([⟨100, ⟨[1]⟩, 7⟩, ⟨100, ⟨[2]⟩, 8⟩] : List ProposerDuty)) ∧
    (FetchProposers 0 ⟨false, none, [⟨100, ⟨[1]⟩, 7⟩, ⟨100, ⟨[2]⟩, 8⟩]⟩
      ⟨128, []⟩).1 = .ok () ∧
    (GetProposer (FetchProposers 0 ⟨false, none,
      [⟨100, ⟨[1]⟩, 7⟩, ⟨100, ⟨[2]⟩, 8⟩]⟩ ⟨128, []⟩).2 100).1 = .ok ⟨⟨[2]⟩, 8⟩ ∧
    (GetProposer (FetchProposers 0 ⟨false, none,
      [⟨100, ⟨[1]⟩, 7⟩, ⟨100, ⟨[2]⟩, 8⟩]⟩ ⟨128, []⟩).2 100).1 ≠ .ok ⟨⟨[1]⟩, 7⟩ := by
  refine ⟨by decide, rfl, rfl, fun hcontra => ?_⟩
  exact absurd (Except.ok.inj hcontra) (by decide)

/-- Claim C4 (amended): after `FetchProposers` succeeds on a duty list of at
most 128 entries (the cache capacity) in which (slot=100, pubkey=P, index=7)
is the only duty for slot 100, `GetProposer(100)` returns {P, 7} and
`GetProposerPublicKey(100)` returns P. -/
theorem FetchProposers_GetProposer_roundTrip
    (epoch : Epoch) (o : ProposersOutcome) (c : Lru Slot ValidatorInfo)
    (P : PublicKey)
    (hs : o.syncing = false) (he : o.err = none)
    (hmem : (⟨100, P, 7⟩ : ProposerDuty) ∈ o.duties)
    (huniq : ∀ d ∈ o.duties, d.slot = 100 → d = ⟨100, P, 7⟩)
    (hlen : o.duties.length ≤ 128) (hcap : c.cap = 128) :
    (FetchProposers epoch o c).1 = .ok () ∧
    (GetProposer (FetchProposers epoch o c).2 100).1 = .ok ⟨P, 7⟩ ∧
    (GetProposerPublicKey (FetchProposers epoch o c).2 100).1 = .ok P := by
  have hf : FetchProposers epoch o c =
      (.ok (), foldAdd c (o.duties.map
        fun d => (d.slot, ⟨d.pubkey, d.validatorIndex⟩))) := by
    simp [FetchProposers, hs, he]
  have hmem' : ((100 : Slot), (⟨P, 7⟩ : ValidatorInfo)) ∈
      o.duties.map fun d => (d.slot, (⟨d.pubkey, d.validatorIndex⟩ : ValidatorInfo)) :=
    List.mem_map.2 ⟨⟨100, P, 7⟩, hmem, rfl⟩
  have huniq' : ∀ p ∈ o.duties.map
      (fun d => (d.slot, (⟨d.pubkey, d.validatorIndex⟩ : ValidatorInfo))),
      p.1 = 100 → p.2 = ⟨P, 7⟩ := by
    intro p hp hp1
    obtain ⟨d, hd, rfl⟩ := List.mem_map.1 hp
    have hd100 : d.slot = 100 := hp1
    have hdl := huniq d hd hd100
    subst hdl
    rfl
  have hlen' : (o.duties.map
      (fun d => (d.slot, (⟨d.pubkey, d.validatorIndex⟩ : ValidatorInfo)))).length ≤
      c.cap := by
    rw [List.length_map, hcap]
    exact hlen
  have hlk := Lru.lookup_of_atFront
    (foldAdd_atFront _ c 100 ⟨P, 7⟩ hmem' huniq' hlen')
  refine ⟨by rw [hf], ?_, ?_⟩
  · rw [hf]
    simp [GetProposer, Lru.get_of_lookup_some hlk]
  · rw [hf]
    simp [GetProposerPublicKey, GetProposer, Lru.get_of_lookup_some hlk]

/-- Witness for C4 (amended) at a one-duty list. -/
theorem FetchProposers_GetProposer_roundTrip_witness :
    (FetchProposers 0 ⟨false, none, [⟨100, ⟨[3]⟩, 7⟩]⟩ ⟨128, []⟩).1 = .ok () ∧
    (GetProposer (FetchProposers 0 ⟨false, none, [⟨100, ⟨[3]⟩, 7⟩]⟩
      ⟨128, []⟩).2 100).1 = .ok ⟨⟨[3]⟩, 7⟩ ∧
    (GetProposerPublicKey (FetchProposers 0 ⟨false, none, [⟨100, ⟨[3]⟩, 7⟩]⟩
      ⟨128, []⟩).2 100).1 = .ok ⟨[3]⟩ :=
  FetchProposers_GetProposer_roundTrip 0 ⟨false, none, [⟨100, ⟨[3]⟩, 7⟩]⟩
    ⟨128, []⟩ ⟨[3]⟩ rfl rfl (by decide) (by decide) (by decide) rfl

/-- Claim C8: the head-event decoder emits exactly one `Coordinate` per
well-formed event and nothing (and no error) for each malformed event; in
particular a non-JSON payload followed by a well-formed payload with slot
string "42" yields exactly the one coordinate at slot 42. -/
theorem StreamHeads_emits_exactly_wellformed (evs : List RawEvent) (r : Root) :
    StreamHeads evs = evs.filterMap specEmit ∧
    (StreamHeads evs).length = evs.countP (fun ev => (specEmit ev).isSome) ∧
    StreamHeads [RawEvent.malformed, RawEvent.headEv "42" r] = [⟨42, r⟩] := by
  have hfm : ∀ l : List RawEvent, StreamHeads l = l.filterMap specEmit := by
    intro l
    induction l with
    | nil => rfl
    | cons ev t ih =>
      cases ev with
      | malformed => simpa [StreamHeads, specEmit] using ih
      | headEv s b =>
        cases hgs : goAtoi s with
        | none => simpa [StreamHeads, specEmit, hgs] using ih
        | some n => simpa [StreamHeads, specEmit, hgs] using ih
  refine ⟨hfm evs, ?_, rfl⟩
  rw [hfm evs]
  induction evs with
  | nil => rfl
  | cons ev t ih =>
    cases h : specEmit ev <;>
      simp [List.filterMap_cons, h, List.countP_cons, ih]

/-- Claim C9: the warmup attempts `FetchExecutionHash` for exactly the slots
of the half-open window [max(0, currentSlot − slotsPerEpoch), slotsPerEpoch)
— in particular no slot at all once currentSlot ≥ 2·slotsPerEpoch — and
`NewClient` returns a usable client whatever the remote outcomes are, so
per-slot warmup failures never fail construction. -/
theorem NewClient_warmup_window (currentSlot slotsPerEpoch : Nat) (s : Slot) :
    (s ∈ warmupSlots currentSlot slotsPerEpoch ↔
      max 0 ((currentSlot : Int) - (slotsPerEpoch : Int)) ≤ (s : Int) ∧
        (s : Int) < (slotsPerEpoch : Int)) ∧
    (2 * slotsPerEpoch ≤ currentSlot → warmupSlots currentSlot slotsPerEpoch = []) ∧
    (∀ (remote : RemoteNode) (currentEpoch : Epoch),
      ∃ cl, NewClient remote currentSlot currentEpoch slotsPerEpoch = .ok cl) := by
  have hbase : warmupSlots currentSlot slotsPerEpoch =
      List.range'
        (if currentSlot > slotsPerEpoch then currentSlot - slotsPerEpoch else 0)
        (slotsPerEpoch -
          (if currentSlot > slotsPerEpoch then currentSlot - slotsPerEpoch else 0)) :=
    rfl
  refine ⟨?_, ?_, fun remote ce => ⟨_, rfl⟩⟩
  · rw [hbase, List.mem_range'_1]
    by_cases h : currentSlot > slotsPerEpoch
    · simp only [if_pos h]
      omega
    · simp only [if_neg h]
      omega
  · intro h2
    rw [hbase]
    by_cases h : currentSlot > slotsPerEpoch
    · simp only [if_pos h]
      have hz : slotsPerEpoch - (currentSlot - slotsPerEpoch) = 0 := by omega
      rw [hz]
      rfl
    · simp only [if_neg h]
      have hz : slotsPerEpoch = 0 := by omega
      rw [hz]
      rfl

/-- Witness for C9: with currentSlot = 64 and slotsPerEpoch = 32 (so
currentSlot = 2·slotsPerEpoch) the warmup window is empty. -/
theorem NewClient_warmup_window_witness : warmupSlots 64 32 = [] :=
  (NewClient_warmup_window 64 32 0).2.1 (by norm_num)
